import Mathlib

/-!
# Minio entry point (main.go): mode selection and listener configuration

A shallow embedding of `runMemory`, `runDonut`, `getAPIServerConfig` and
`getWebServerConfigFunc` from `src/main.go`.

* A process exit (`cli.ShowCommandHelpAndExit`, `Fatalln`, `Fatalf`) is a value of `Exit`;
  a run is an `Outcome`: either the process exited, or `server.StartMinio` was called
  with a list of start functions.
* A start function is a closure over its factory; it is represented by the factory it
  closes over.
* `uint64` sizes are `Nat`, `time.Duration` (int64 nanoseconds) is `Int`; the code only
  compares and stores them.
* The size parser, the duration parser, `user.Current` and `path.Join` are collaborators
  outside `main.go`; the operations take them as parameters.
-/

namespace Minio

/-- Equality of results is decidable when equality of values and of errors is. -/
instance instDecidableEqExcept {ε α : Type} [DecidableEq ε] [DecidableEq α] :
    DecidableEq (Except ε α)
  | Except.ok a, Except.ok b =>
    if h : a = b then isTrue (by rw [h]) else isFalse (fun h2 => h (Except.ok.inj h2))
  | Except.error a, Except.error b =>
    if h : a = b then isTrue (by rw [h]) else isFalse (fun h2 => h (Except.error.inj h2))
  | Except.ok _, Except.error _ => isFalse (fun h => Except.noConfusion h)
  | Except.error _, Except.ok _ => isFalse (fun h => Except.noConfusion h)

/-! ## Data model -/

namespace httpserver

/-- The listener configuration `httpserver.Config`, with the fields set in main.go. -/
structure Config where
  Address : String
  TLS : Bool
  CertFile : String
  KeyFile : String
deriving DecidableEq, Repr

end httpserver

namespace server

/-- The bounded-memory driver factory `server.MemoryFactory`. -/
structure MemoryFactory where
  Config : httpserver.Config
  MaxMemory : Nat
  Expiration : Int
deriving DecidableEq, Repr

/-- The multi-path persistent driver factory `server.DonutFactory`. -/
structure DonutFactory where
  Config : httpserver.Config
  Paths : List String
deriving DecidableEq, Repr

/-- The management listener factory `server.WebFactory`. -/
structure WebFactory where
  Config : httpserver.Config
deriving DecidableEq, Repr

/-- A `server.StartServerFunc`: the deferred start action of one listener, represented by
the factory whose configuration it closes over. -/
inductive StartServerFunc where
  | memory (factory : MemoryFactory)
  | donut (factory : DonutFactory)
  | web (factory : WebFactory)
deriving DecidableEq, Repr

/-- The start function of a memory factory closes over that factory. -/
def MemoryFactory.GetStartServerFunc (f : MemoryFactory) : StartServerFunc :=
  StartServerFunc.memory f

/-- The start function of a donut factory closes over that factory. -/
def DonutFactory.GetStartServerFunc (f : DonutFactory) : StartServerFunc :=
  StartServerFunc.donut f

/-- The start function of a web factory closes over that factory. -/
def WebFactory.GetStartServerFunc (f : WebFactory) : StartServerFunc :=
  StartServerFunc.web f

end server

namespace user

/-- The part of `user.User` that main.go reads. -/
structure User where
  HomeDir : String
deriving DecidableEq, Repr

end user

namespace cli

/-- What main.go reads from a `cli.Context`: the positional arguments, and the flag
lookups `c.String(name)` (field `Str`) and `c.GlobalString(name)`. -/
structure Context where
  Args : List String
  Str : String → String
  GlobalString : String → String

/-- The method `Args.First` of the cli package: the first argument, the empty string when
there is none. main.go calls it on non-empty lists only. -/
def Args.First (a : List String) : String :=
  a.headD ""

/-- The method `Args.Tail` of the cli package: the arguments after the first, the empty
list when there are fewer than two. -/
def Args.Tail (a : List String) : List String :=
  if a.length ≥ 2 then a.drop 1 else []

end cli

/-- The messages of the `Fatalln` and `Fatalf` calls in main.go. -/
inductive FatalError where
  /-- Message "Limit should be set only once". -/
  | limitSetTwice
  /-- Message "Invalid memory size [%s] passed. Reason: %s". -/
  | invalidMemorySize (arg : String) (reason : String)
  /-- Message "Invalid memory size [%s] passed. Should be greater than 10M". -/
  | memorySizeTooSmall (arg : String)
  /-- Message "Expiration should be set only once". -/
  | expirationSetTwice
  /-- Message "Invalid expiration time [%s] passed. Reason: %s". -/
  | invalidExpiration (arg : String) (reason : String)
  /-- Message "Memory limit must be set". -/
  | limitNotSet
  /-- Message "Both certificate and key are required to enable https.". -/
  | certAndKeyRequired
  /-- Message "Unable to determine current user. Reason: %s". -/
  | currentUser (reason : String)
deriving DecidableEq, Repr

/-- The two ways main.go ends the process early: `cli.ShowCommandHelpAndExit(c, command,
code)`, and a `Fatalln` or `Fatalf` call. -/
inductive Exit where
  | help (command : String) (code : Nat)
  | fatal (e : FatalError)
deriving DecidableEq, Repr

/-- Modelled from the spec: `Fatalln` and `Fatalf` are declared outside main.go; "all fatal
errors terminate the process with a non-zero exit status", taken to be 1. The status of a
help exit is the code passed at the call site. -/
def Exit.status : Exit → Nat
  | Exit.help _ code => code
  | Exit.fatal _ => 1

/-- The result of a run of a mode command: the process exited early, or
`server.StartMinio(servers)` was called. -/
inductive Outcome where
  | exited (e : Exit)
  | StartMinio (servers : List server.StartServerFunc)
deriving DecidableEq, Repr

/-! ## getAPIServerConfig and getWebServerConfigFunc -/

/-- The function `getAPIServerConfig` of main.go. -/
def getAPIServerConfig (c : cli.Context) : Except Exit httpserver.Config :=
  let certFile := c.Str "cert"
  let keyFile := c.Str "key"
  if (certFile ≠ "" ∧ keyFile = "") ∨ (certFile = "" ∧ keyFile ≠ "") then
    Except.error (Exit.fatal FatalError.certAndKeyRequired)
  else
    let tls : Bool := decide (certFile ≠ "" ∧ keyFile ≠ "")
    Except.ok {
      Address := c.GlobalString "api-address"
      TLS := tls
      CertFile := certFile
      KeyFile := keyFile }

/-- The function `getWebServerConfigFunc` of main.go. -/
def getWebServerConfigFunc (c : cli.Context) : server.StartServerFunc :=
  let config : httpserver.Config := {
    Address := c.GlobalString "web-address"
    TLS := false
    CertFile := ""
    KeyFile := "" }
  let webDrivers : server.WebFactory := { Config := config }
  webDrivers.GetStartServerFunc

/-! ## runMemory -/

/-- The local variables of `runMemory` that its argument loop reads and writes. -/
structure MemoryLoopState where
  args : List String
  maxMemory : Nat
  maxMemorySet : Bool
  expiration : Int
  expirationSet : Bool
deriving DecidableEq, Repr

/-- The locals of `runMemory` when its loop is entered: `args := c.Args()`, and the zero
values of the four declared variables. -/
def initialState (args : List String) : MemoryLoopState :=
  { args := args, maxMemory := 0, maxMemorySet := false, expiration := 0, expirationSet := false }

/-- One pass through the body of the loop `for len(args) > 0` of `runMemory`: the
`switch args.First()` with its three cases. -/
def memoryStep (ParseBytes : String → Except String Nat)
    (ParseDuration : String → Except String Int)
    (st : MemoryLoopState) : Except Exit MemoryLoopState :=
  if cli.Args.First st.args = "limit" then
    if st.maxMemorySet then
      Except.error (Exit.fatal FatalError.limitSetTwice)
    else
      let args := cli.Args.Tail st.args
      match ParseBytes (cli.Args.First args) with
      | Except.error err =>
        Except.error (Exit.fatal (FatalError.invalidMemorySize (cli.Args.First args) err))
      | Except.ok maxMemory =>
        if maxMemory < 1024 * 1024 * 10 then
          Except.error (Exit.fatal (FatalError.memorySizeTooSmall (cli.Args.First args)))
        else
          Except.ok { st with
            args := cli.Args.Tail args
            maxMemory := maxMemory
            maxMemorySet := true }
  else if cli.Args.First st.args = "expire" then
    if st.expirationSet then
      Except.error (Exit.fatal FatalError.expirationSetTwice)
    else
      let args := cli.Args.Tail st.args
      match ParseDuration (cli.Args.First args) with
      | Except.error err =>
        Except.error (Exit.fatal (FatalError.invalidExpiration (cli.Args.First args) err))
      | Except.ok expiration =>
        Except.ok { st with
          args := cli.Args.Tail args
          expiration := expiration
          expirationSet := true }
  else
    Except.error (Exit.help "memory" 1)

/-- A pass of the loop body that does not exit leaves a shorter argument list. -/
theorem memoryStep_args_length (ParseBytes : String → Except String Nat)
    (ParseDuration : String → Except String Int) (st st' : MemoryLoopState)
    (hpos : st.args.length > 0) (h : memoryStep ParseBytes ParseDuration st = Except.ok st') :
    st'.args.length < st.args.length := by
  have key : (cli.Args.Tail (cli.Args.Tail st.args)).length < st.args.length := by
    unfold cli.Args.Tail
    split_ifs <;> simp at * <;> omega
  unfold memoryStep at h
  split_ifs at h
  · dsimp only at h
    split at h
    · cases h
    · split_ifs at h
      cases h
      exact key
  · dsimp only at h
    split at h
    · cases h
    · cases h
      exact key

/-- The loop `for len(args) > 0` of `runMemory`. -/
def memoryLoop (ParseBytes : String → Except String Nat)
    (ParseDuration : String → Except String Int)
    (st : MemoryLoopState) : Except Exit MemoryLoopState :=
  if hpos : st.args.length > 0 then
    match h : memoryStep ParseBytes ParseDuration st with
    | Except.error e => Except.error e
    | Except.ok st' => memoryLoop ParseBytes ParseDuration st'
  else
    Except.ok st
termination_by st.args.length
decreasing_by exact memoryStep_args_length ParseBytes ParseDuration st st' hpos h

/-- The function `runMemory` of main.go. -/
def runMemory (ParseBytes : String → Except String Nat)
    (ParseDuration : String → Except String Int) (c : cli.Context) : Outcome :=
  if c.Args.length = 0 ∨ c.Args.length % 2 ≠ 0 then
    Outcome.exited (Exit.help "memory" 1)
  else
    match getAPIServerConfig c with
    | Except.error e => Outcome.exited e
    | Except.ok apiServerConfig =>
      match memoryLoop ParseBytes ParseDuration (initialState c.Args) with
      | Except.error e => Outcome.exited e
      | Except.ok st =>
        if st.maxMemorySet = false then
          Outcome.exited (Exit.fatal FatalError.limitNotSet)
        else
          let memoryDriver : server.MemoryFactory := {
            Config := apiServerConfig
            MaxMemory := st.maxMemory
            Expiration := st.expiration }
          let apiServer := memoryDriver.GetStartServerFunc
          let webServer := getWebServerConfigFunc c
          let servers := [apiServer, webServer]
          Outcome.StartMinio servers

/-! ## runDonut -/

namespace unicode

/-- White space as `unicode.IsSpace` of the Go library defines it: tab, line feed, vertical
tab, form feed, carriage return, space, U+0085, U+00A0, and the space separators
U+1680, U+2000 to U+200A, U+2028, U+2029, U+202F, U+205F, U+3000. -/
def IsSpace (r : Char) : Bool :=
  let n := r.toNat
  (9 ≤ n && n ≤ 13) || n = 32 || n = 133 || n = 160 || n = 5760 ||
    (8192 ≤ n && n ≤ 8202) || n = 8232 || n = 8233 || n = 8239 || n = 8287 || n = 12288

end unicode

namespace strings

/-- The library function `strings.TrimSpace`: the string without its leading and trailing
white space. -/
def TrimSpace (s : String) : String :=
  String.mk ((s.data.dropWhile unicode.IsSpace).reverse.dropWhile unicode.IsSpace).reverse

end strings

/-- The function `runDonut` of main.go. `Current` is the result of `user.Current()` and
`Join` is `path.Join`. -/
def runDonut (Current : Except String user.User) (Join : List String → String)
    (c : cli.Context) : Outcome :=
  match Current with
  | Except.error err => Outcome.exited (Exit.fatal (FatalError.currentUser err))
  | Except.ok u =>
    if c.Args.length < 1 then
      Outcome.exited (Exit.help "donut" 1)
    else
      let paths : List String :=
        if strings.TrimSpace (cli.Args.First c.Args) = "" then
          let p := Join [u.HomeDir, "minio-storage", "donut"]
          [] ++ [p]
        else
          c.Args.foldl (fun paths arg => paths ++ [strings.TrimSpace arg]) []
      match getAPIServerConfig c with
      | Except.error e => Outcome.exited e
      | Except.ok apiServerConfig =>
        let donutDriver : server.DonutFactory := {
          Config := apiServerConfig
          Paths := paths }
        let apiServer := donutDriver.GetStartServerFunc
        let webServer := getWebServerConfigFunc c
        let servers := [apiServer, webServer]
        Outcome.StartMinio servers

/-! ## Collaborators outside main.go -/

/-- The value of a run of decimal digits. -/
def digitsValue (ds : List Char) : Nat :=
  ds.foldl (fun n d => 10 * n + (d.toNat - 48)) 0

namespace humanize

/-- Modelled from the spec: the unit suffixes of a size literal, "B/KB/MB/GB", with 64MB
being 64 × 1024 × 1024 bytes. -/
def bytesSizeTable (suffix : String) : Option Nat :=
  if suffix = "B" then some 1
  else if suffix = "KB" then some 1024
  else if suffix = "MB" then some (1024 * 1024)
  else if suffix = "GB" then some (1024 * 1024 * 1024)
  else none

/-- Modelled from the spec: the size-literal parser `humanize.ParseBytes`, which is not
part of main.go: "string → byte count, fails with a parse error on malformed input", a
literal being a decimal number followed by a unit suffix. The count is a uint64. -/
def ParseBytes (s : String) : Except String Nat :=
  let num := s.data.takeWhile Char.isDigit
  let extra := String.mk (s.data.dropWhile Char.isDigit)
  if num = [] then
    Except.error "invalid number"
  else
    match bytesSizeTable extra with
    | none => Except.error "unhandled size name"
    | some m =>
      if digitsValue num * m ≥ 2 ^ 64 then Except.error "too large"
      else Except.ok (digitsValue num * m)

end humanize

namespace time

/-- One nanosecond, the unit of `time.Duration`. -/
def Nanosecond : Int := 1

/-- One hour in nanoseconds. -/
def Hour : Int := 60 * 60 * 1000 * 1000 * 1000 * Nanosecond

/-- The units of a duration literal, in nanoseconds: "ns", "us", "ms", "s", "m", "h". -/
def unitMap (u : String) : Option Nat :=
  if u = "ns" then some 1
  else if u = "us" then some 1000
  else if u = "ms" then some 1000000
  else if u = "s" then some 1000000000
  else if u = "m" then some (60 * 1000000000)
  else if u = "h" then some (60 * 60 * 1000000000)
  else none

/-- The components `[0-9]+unit` of a duration literal, summed in nanoseconds. The first
argument bounds the number of components; the length of the literal is enough, each
component having at least two characters. -/
def parseComponents : Nat → List Char → Nat → Except String Nat
  | _, [], total => Except.ok total
  | 0, _ :: _, _ => Except.error "invalid duration"
  | fuel + 1, c :: cs, total =>
    let s := c :: cs
    let num := s.takeWhile Char.isDigit
    let rest := s.dropWhile Char.isDigit
    if num = [] then
      Except.error "invalid duration"
    else
      let isUnit := fun (r : Char) => !(r = Char.ofNat 46 || r.isDigit)
      let u := rest.takeWhile isUnit
      if u = [] then
        Except.error "missing unit in duration"
      else
        match unitMap (String.mk u) with
        | none => Except.error "unknown unit in duration"
        | some unit => parseComponents fuel (rest.dropWhile isUnit) (total + digitsValue num * unit)

/-- Modelled from the spec: the duration-literal parser, "string → duration, fails with a
parse error on malformed input". It is `time.ParseDuration` of the Go standard library and
not part of main.go; the grammar is the one that library documents: an optional sign
followed by either a single 0 or one or more components, each a decimal number with a
unit, as in "1h", "-1h" or "2h45m"; a duration is a signed 64-bit count of nanoseconds.
Components with a fractional part, as in "1.5h", are not covered and are rejected here. -/
def ParseDuration (s : String) : Except String Int :=
  let neg : Bool := s.data.head? = some (Char.ofNat 45)
  let body : List Char :=
    if s.data.head? = some (Char.ofNat 45) ∨ s.data.head? = some (Char.ofNat 43) then s.data.drop 1
    else s.data
  if body = [Char.ofNat 48] then
    Except.ok 0
  else if body = [] then
    Except.error "invalid duration"
  else
    match parseComponents body.length body 0 with
    | Except.error err => Except.error err
    | Except.ok total =>
      if neg then
        if total > 2 ^ 63 then Except.error "invalid duration" else Except.ok (-(total : Int))
      else
        if total > 2 ^ 63 - 1 then Except.error "invalid duration" else Except.ok (total : Int)

end time

namespace path

/-- A stand-in for `path.Join` on clean, non-empty elements, where joining is putting a
slash between them. It only serves as a concrete value of the `Join` parameter. -/
def joinClean (elem : List String) : String :=
  String.intercalate "/" elem

end path

/-- The argument tokens in keyword position: the first, the third and so on. The loop of
`runMemory` reads the tokens in pairs, a keyword and its value. -/
def keywords : List String → List String
  | [] => []
  | [k] => [k]
  | k :: _ :: rest => k :: keywords rest

/-- A context with the given arguments, cert and key, and the default listener addresses
of the flag table of main.go. -/
def defaultContext (args : List String) (cert key : String) : cli.Context :=
  { Args := args
    Str := fun name => if name = "cert" then cert else if name = "key" then key else ""
    GlobalString := fun name =>
      if name = "api-address" then ":9000"
      else if name = "web-address" then ":9001"
      else if name = "cert" then cert
      else if name = "key" then key
      else "" }

/-- The (keyword, value) pairs of an argument list, in order. -/
def pairs : List String → List (String × String)
  | k :: v :: rest => (k, v) :: pairs rest
  | _ => []

/-! ## The argument loop, one pair at a time -/

section Loop

variable (pb : String → Except String Nat) (pd : String → Except String Int)

/-- The tail of a non-empty argument list is the list after its first element. -/
theorem Tail_cons (a : String) (l : List String) : cli.Args.Tail (a :: l) = l := by
  cases l <;> simp [cli.Args.Tail]

/-- The loop, unfolded once. -/
theorem memoryLoop_unfold (st : MemoryLoopState) :
    memoryLoop pb pd st =
      if st.args.length > 0 then
        match memoryStep pb pd st with
        | Except.error e => Except.error e
        | Except.ok st' => memoryLoop pb pd st'
      else Except.ok st := by
  rw [memoryLoop]
  split_ifs with h
  · split <;> simp_all
  · rfl

/-- With no argument left the loop ends and leaves the locals as they are. -/
theorem memoryLoop_nil (m : Nat) (ms : Bool) (e : Int) (es : Bool) :
    memoryLoop pb pd ⟨[], m, ms, e, es⟩ = Except.ok ⟨[], m, ms, e, es⟩ := by
  rw [memoryLoop_unfold]
  simp

/-- The loop on a list that starts with the pair limit, v. -/
theorem memoryLoop_limit (v : String) (rest : List String) (m : Nat) (ms : Bool) (e : Int)
    (es : Bool) :
    memoryLoop pb pd ⟨"limit" :: v :: rest, m, ms, e, es⟩ =
      if ms then Except.error (Exit.fatal FatalError.limitSetTwice)
      else
        match pb v with
        | Except.error err => Except.error (Exit.fatal (FatalError.invalidMemorySize v err))
        | Except.ok n =>
          if n < 1024 * 1024 * 10 then
            Except.error (Exit.fatal (FatalError.memorySizeTooSmall v))
          else memoryLoop pb pd ⟨rest, n, true, e, es⟩ := by
  rw [memoryLoop_unfold]
  simp only [memoryStep, cli.Args.First, Tail_cons]
  cases ms
  · cases hv : pb v with
    | error err => simp [hv]
    | ok n =>
      by_cases hn : n < 1024 * 1024 * 10
      · simp [hv, hn]
      · simp [hv, hn]
  · simp

/-- The loop on a list that starts with the pair expire, v. -/
theorem memoryLoop_expire (v : String) (rest : List String) (m : Nat) (ms : Bool) (e : Int)
    (es : Bool) :
    memoryLoop pb pd ⟨"expire" :: v :: rest, m, ms, e, es⟩ =
      if es then Except.error (Exit.fatal FatalError.expirationSetTwice)
      else
        match pd v with
        | Except.error err => Except.error (Exit.fatal (FatalError.invalidExpiration v err))
        | Except.ok d => memoryLoop pb pd ⟨rest, m, ms, d, true⟩ := by
  rw [memoryLoop_unfold]
  simp only [memoryStep, cli.Args.First, Tail_cons]
  cases es
  · cases hv : pd v with
    | error err => simp [hv]
    | ok d => simp [hv]
  · simp

/-- The loop on a list whose first token is neither limit nor expire. -/
theorem memoryLoop_other (k v : String) (rest : List String) (m : Nat) (ms : Bool) (e : Int)
    (es : Bool) (hl : k ≠ "limit") (he : k ≠ "expire") :
    memoryLoop pb pd ⟨k :: v :: rest, m, ms, e, es⟩ = Except.error (Exit.help "memory" 1) := by
  rw [memoryLoop_unfold]
  simp [memoryStep, cli.Args.First, hl, he]

/-- A keyword of a pair is a token in keyword position. -/
theorem mem_keywords_of_mem_pairs : ∀ (args : List String) (k v : String),
    (k, v) ∈ pairs args → k ∈ keywords args
  | [], _, _, h => by simp [pairs] at h
  | [_], _, _, h => by simp [pairs] at h
  | k0 :: v0 :: rest, k, v, h => by
    simp only [pairs, List.mem_cons, Prod.mk.injEq] at h
    simp only [keywords, List.mem_cons]
    rcases h with h | h
    · exact Or.inl h.1
    · exact Or.inr (mem_keywords_of_mem_pairs rest k v h)

/-- What is known of an argument list and of the locals after the loop, when the loop
started with memory limit m (set: ms) and expiration e (set: es) and ended without exit
in the state st. -/
structure LoopAccepts (args : List String) (m : Nat) (ms : Bool) (e : Int) (es : Bool)
    (st : MemoryLoopState) : Prop where
  args_nil : st.args = []
  known : ∀ k ∈ keywords args, k = "limit" ∨ k = "expire"
  limit_once : (keywords args).count "limit" ≤ 1
  limit_fresh : ms = true → "limit" ∉ keywords args
  expire_once : (keywords args).count "expire" ≤ 1
  expire_fresh : es = true → "expire" ∉ keywords args
  limit_set : st.maxMemorySet = true ↔ (ms = true ∨ "limit" ∈ keywords args)
  expire_set : st.expirationSet = true ↔ (es = true ∨ "expire" ∈ keywords args)
  limit_keep : "limit" ∉ keywords args → st.maxMemory = m
  limit_value : ∀ s, ("limit", s) ∈ pairs args →
    pb s = Except.ok st.maxMemory ∧ 1024 * 1024 * 10 ≤ st.maxMemory
  expire_keep : "expire" ∉ keywords args → st.expiration = e
  expire_value : ∀ t, ("expire", t) ∈ pairs args → pd t = Except.ok st.expiration

/-- The loop ends without exit only on argument lists it accepts. -/
theorem memoryLoop_ok : ∀ (args : List String) (m : Nat) (ms : Bool) (e : Int) (es : Bool)
    (st : MemoryLoopState), args.length % 2 = 0 →
    memoryLoop pb pd ⟨args, m, ms, e, es⟩ = Except.ok st →
    LoopAccepts pb pd args m ms e es st
  | [], m, ms, e, es, st, _, h => by
    rw [memoryLoop_nil] at h
    cases h
    constructor <;> simp [keywords, pairs]
  | [_], _, _, _, _, _, hlen, _ => by simp at hlen
  | k :: v :: rest, m, ms, e, es, st, hlen, h => by
    have hlen2 : rest.length % 2 = 0 := by
      simp only [List.length_cons] at hlen
      omega
    by_cases hl : k = "limit"
    · subst hl
      rw [memoryLoop_limit] at h
      cases ms with
      | true => simp at h
      | false =>
        simp only [Bool.false_eq_true, if_false] at h
        cases hv : pb v with
        | error err => rw [hv] at h; cases h
        | ok n =>
          rw [hv] at h
          simp only at h
          by_cases hn : n < 1024 * 1024 * 10
          · rw [if_pos hn] at h; cases h
          · rw [if_neg hn] at h
            have ih := memoryLoop_ok rest n true e es st hlen2 h
            have hnot : "limit" ∉ keywords rest := ih.limit_fresh rfl
            have hne : ("limit" : String) ≠ "expire" := by decide
            constructor
            · exact ih.args_nil
            · intro k hk
              simp only [keywords, List.mem_cons] at hk
              rcases hk with hk | hk
              · exact Or.inl hk
              · exact ih.known k hk
            · simp only [keywords, List.count_cons_self]
              have := List.count_eq_zero.mpr hnot
              omega
            · intro hms; cases hms
            · simp only [keywords]
              rw [List.count_cons_of_ne (Ne.symm hne)]
              exact ih.expire_once
            · intro hes
              simp only [keywords, List.mem_cons, not_or]
              exact ⟨Ne.symm hne, ih.expire_fresh hes⟩
            · simp only [keywords, List.mem_cons, true_or, or_true, iff_true]
              exact ih.limit_set.mpr (Or.inl rfl)
            · rw [ih.expire_set]
              simp only [keywords, List.mem_cons]
              constructor
              · rintro (h1 | h1)
                · exact Or.inl h1
                · exact Or.inr (Or.inr h1)
              · rintro (h1 | h1 | h1)
                · exact Or.inl h1
                · exact absurd h1 (Ne.symm hne)
                · exact Or.inr h1
            · intro hcontra
              simp [keywords] at hcontra
            · intro s hs
              simp only [pairs, List.mem_cons, Prod.mk.injEq, true_and] at hs
              rcases hs with hs | hs
              · subst hs
                rw [ih.limit_keep hnot]
                exact ⟨hv, Nat.le_of_not_lt hn⟩
              · exact absurd (mem_keywords_of_mem_pairs rest _ _ hs) hnot
            · intro hno
              apply ih.expire_keep
              intro hmem
              exact hno (by simp [keywords, hmem])
            · intro t ht
              simp only [pairs, List.mem_cons, Prod.mk.injEq] at ht
              rcases ht with ht | ht
              · exact absurd ht.1 (Ne.symm hne)
              · exact ih.expire_value t ht
    · by_cases he : k = "expire"
      · subst he
        rw [memoryLoop_expire] at h
        cases es with
        | true => simp at h
        | false =>
          simp only [Bool.false_eq_true, if_false] at h
          cases hv : pd v with
          | error err => rw [hv] at h; cases h
          | ok d =>
            rw [hv] at h
            simp only at h
            have ih := memoryLoop_ok rest m ms d true st hlen2 h
            have hnot : "expire" ∉ keywords rest := ih.expire_fresh rfl
            have hne : ("expire" : String) ≠ "limit" := by decide
            constructor
            · exact ih.args_nil
            · intro k hk
              simp only [keywords, List.mem_cons] at hk
              rcases hk with hk | hk
              · exact Or.inr hk
              · exact ih.known k hk
            · simp only [keywords]
              rw [List.count_cons_of_ne (Ne.symm hne)]
              exact ih.limit_once
            · intro hms
              simp only [keywords, List.mem_cons, not_or]
              exact ⟨Ne.symm hne, ih.limit_fresh hms⟩
            · simp only [keywords, List.count_cons_self]
              have := List.count_eq_zero.mpr hnot
              omega
            · intro hes; cases hes
            · rw [ih.limit_set]
              simp only [keywords, List.mem_cons]
              constructor
              · rintro (h1 | h1)
                · exact Or.inl h1
                · exact Or.inr (Or.inr h1)
              · rintro (h1 | h1 | h1)
                · exact Or.inl h1
                · exact absurd h1 (Ne.symm hne)
                · exact Or.inr h1
            · simp only [keywords, List.mem_cons, true_or, or_true, iff_true]
              exact ih.expire_set.mpr (Or.inl rfl)
            · intro hno
              apply ih.limit_keep
              intro hmem
              exact hno (by simp [keywords, hmem])
            · intro s hs
              simp only [pairs, List.mem_cons, Prod.mk.injEq] at hs
              rcases hs with hs | hs
              · exact absurd hs.1 (Ne.symm hne)
              · exact ih.limit_value s hs
            · intro hcontra
              simp [keywords] at hcontra
            · intro t ht
              simp only [pairs, List.mem_cons, Prod.mk.injEq, true_and] at ht
              rcases ht with ht | ht
              · subst ht
                rw [ih.expire_keep hnot]
                exact hv
              · exact absurd (mem_keywords_of_mem_pairs rest _ _ ht) hnot
      · rw [memoryLoop_other pb pd k v rest m ms e es hl he] at h
        cases h

/-- A pass of the loop body that exits does so with status 1. -/
theorem memoryStep_error_status (st : MemoryLoopState) (x : Exit)
    (h : memoryStep pb pd st = Except.error x) : x.status = 1 := by
  unfold memoryStep at h
  split_ifs at h
  · cases h; rfl
  · dsimp only at h
    split at h
    · cases h; rfl
    · split_ifs at h
      cases h; rfl
  · cases h; rfl
  · dsimp only at h
    split at h
    · cases h; rfl
    · cases h
  · cases h; rfl

/-- An exit from the loop has status 1. -/
theorem memoryLoop_error_status (x : Exit) : ∀ (n : Nat) (st : MemoryLoopState),
    st.args.length = n → memoryLoop pb pd st = Except.error x → x.status = 1 := by
  intro n
  induction n using Nat.strong_induction_on with
  | _ n ih =>
    intro st hn h
    rw [memoryLoop_unfold] at h
    split_ifs at h with hpos
    cases hstep : memoryStep pb pd st with
    | error y =>
      rw [hstep] at h
      cases h
      exact memoryStep_error_status pb pd st x hstep
    | ok st' =>
      rw [hstep] at h
      have hlt := memoryStep_args_length pb pd st st' hpos hstep
      exact ih st'.args.length (hn ▸ hlt) st' rfl h

/-- An exit from getAPIServerConfig has status 1. -/
theorem getAPIServerConfig_error_status (c : cli.Context) (x : Exit)
    (h : getAPIServerConfig c = Except.error x) : x.status = 1 := by
  unfold getAPIServerConfig at h
  dsimp only at h
  split_ifs at h
  cases h; rfl

/-- A run of runMemory that exits does so with status 1. -/
theorem runMemory_exit_status (c : cli.Context) (x : Exit)
    (h : runMemory pb pd c = Outcome.exited x) : x.status = 1 := by
  unfold runMemory initialState at h
  split_ifs at h with h1
  · cases h; rfl
  · cases hcfg : getAPIServerConfig c with
    | error y =>
      rw [hcfg] at h
      cases h
      exact getAPIServerConfig_error_status c x hcfg
    | ok cfg =>
      rw [hcfg] at h
      dsimp only at h
      cases hloop : memoryLoop pb pd
          { args := c.Args, maxMemory := 0, maxMemorySet := false,
            expiration := 0, expirationSet := false } with
      | error y =>
        rw [hloop] at h
        cases h
        exact memoryLoop_error_status pb pd x _ _ rfl hloop
      | ok st =>
        rw [hloop] at h
        dsimp only at h
        split_ifs at h
        cases h; rfl

/-- A run of runMemory that reaches StartMinio: the argument list is non-empty and of even
length, the cert and key check passed, the loop ended without exit with the limit set,
and the servers are the memory start function and the web start function. -/
theorem runMemory_started (c : cli.Context) (servers : List server.StartServerFunc)
    (h : runMemory pb pd c = Outcome.StartMinio servers) :
    ∃ cfg st, getAPIServerConfig c = Except.ok cfg ∧ c.Args ≠ [] ∧ c.Args.length % 2 = 0 ∧
      memoryLoop pb pd (initialState c.Args) = Except.ok st ∧ st.maxMemorySet = true ∧
      servers = [server.StartServerFunc.memory ⟨cfg, st.maxMemory, st.expiration⟩,
        getWebServerConfigFunc c] := by
  unfold runMemory initialState at h
  split_ifs at h with h1
  cases hcfg : getAPIServerConfig c with
  | error y => rw [hcfg] at h; cases h
  | ok cfg =>
    rw [hcfg] at h
    dsimp only at h
    cases hloop : memoryLoop pb pd
        { args := c.Args, maxMemory := 0, maxMemorySet := false,
          expiration := 0, expirationSet := false } with
    | error y => rw [hloop] at h; cases h
    | ok st =>
      rw [hloop] at h
      dsimp only at h
      split_ifs at h with hset
      cases h
      refine ⟨cfg, st, rfl, ?_, ?_, hloop, ?_, rfl⟩
      · intro hnil
        exact h1 (Or.inl (by simp [hnil]))
      · by_contra hodd
        exact h1 (Or.inr hodd)
      · simpa using hset

/-- The run of runMemory on the two pairs limit s, expire t, whatever their order, when
the cert and key check passes, s parses to n and t parses to d. -/
theorem runMemory_two_pairs (c : cli.Context) (cfg : httpserver.Config) (s t : String)
    (n : Nat) (d : Int)
    (hargs : c.Args = ["limit", s, "expire", t] ∨ c.Args = ["expire", t, "limit", s])
    (hcfg : getAPIServerConfig c = Except.ok cfg)
    (hs : pb s = Except.ok n) (ht : pd t = Except.ok d) :
    runMemory pb pd c =
      if n < 1024 * 1024 * 10 then
        Outcome.exited (Exit.fatal (FatalError.memorySizeTooSmall s))
      else
        Outcome.StartMinio [server.StartServerFunc.memory ⟨cfg, n, d⟩,
          getWebServerConfigFunc c] := by
  unfold runMemory initialState
  rcases hargs with hargs | hargs
  · rw [hcfg, hargs]
    simp only [List.length_cons, List.length_nil]
    rw [memoryLoop_limit, hs]
    by_cases hn : n < 1024 * 1024 * 10
    · simp [hn]
    · simp [hn, memoryLoop_expire, ht, memoryLoop_nil, server.MemoryFactory.GetStartServerFunc]
  · rw [hcfg, hargs]
    simp only [List.length_cons, List.length_nil]
    rw [memoryLoop_expire, ht]
    by_cases hn : n < 1024 * 1024 * 10
    · simp [hn, memoryLoop_limit, hs]
    · simp [hn, memoryLoop_limit, hs, memoryLoop_nil, server.MemoryFactory.GetStartServerFunc]

/-- The run of runMemory on the single pair limit s, when the cert and key check passes
and s parses to n. -/
theorem runMemory_limit_only (c : cli.Context) (cfg : httpserver.Config) (s : String)
    (n : Nat) (hargs : c.Args = ["limit", s])
    (hcfg : getAPIServerConfig c = Except.ok cfg) (hs : pb s = Except.ok n) :
    runMemory pb pd c =
      if n < 1024 * 1024 * 10 then
        Outcome.exited (Exit.fatal (FatalError.memorySizeTooSmall s))
      else
        Outcome.StartMinio [server.StartServerFunc.memory ⟨cfg, n, 0⟩,
          getWebServerConfigFunc c] := by
  unfold runMemory initialState
  rw [hcfg, hargs]
  simp only [List.length_cons, List.length_nil]
  rw [memoryLoop_limit, hs]
  by_cases hn : n < 1024 * 1024 * 10
  · simp [hn]
  · simp [hn, memoryLoop_nil, server.MemoryFactory.GetStartServerFunc]

end Loop

/-- On a list of even length, the occurrences of a token are those in keyword position
and those in value position. -/
theorem count_keywords_add_values : ∀ (args : List String) (a : String),
    args.length % 2 = 0 →
    args.count a = (keywords args).count a + ((pairs args).map Prod.snd).count a
  | [], _, _ => by simp [keywords, pairs]
  | [_], _, h => by simp at h
  | k :: v :: rest, a, h => by
    have hrest : rest.length % 2 = 0 := by
      simp only [List.length_cons] at h
      omega
    have ih := count_keywords_add_values rest a hrest
    simp only [keywords, pairs, List.map_cons, List.count_cons, ih]
    omega

/-- A run of runDonut that reaches StartMinio hands it the donut start function and the
web start function. -/
theorem runDonut_started (Current : Except String user.User) (Join : List String → String)
    (c : cli.Context) (servers : List server.StartServerFunc)
    (h : runDonut Current Join c = Outcome.StartMinio servers) :
    ∃ f, servers = [server.StartServerFunc.donut f, getWebServerConfigFunc c] := by
  unfold runDonut at h
  split at h
  · cases h
  · split_ifs at h
    · dsimp only at h
      split at h
      · cases h
      · cases h
        exact ⟨_, rfl⟩
    · dsimp only at h
      split at h
      · cases h
      · cases h
        exact ⟨_, rfl⟩

/-- The cert and key check passes when neither is given. -/
theorem getAPIServerConfig_plain (c : cli.Context) (hc : c.Str "cert" = "")
    (hk : c.Str "key" = "") :
    getAPIServerConfig c = Except.ok ⟨c.GlobalString "api-address", false, "", ""⟩ := by
  simp [getAPIServerConfig, hc, hk]

/-- Appending the trimmed arguments one by one gives the list of trimmed arguments. -/
theorem foldl_append_trim (args acc : List String) :
    args.foldl (fun paths arg => paths ++ [strings.TrimSpace arg]) acc =
      acc ++ args.map strings.TrimSpace := by
  induction args generalizing acc with
  | nil => simp
  | cons a l ih => simp [ih]

/-! ## The modelled parsers on the literals used below -/

/-- The modelled size parser reads 64MB as 64 * 1024 * 1024 bytes. -/
theorem ParseBytes_64MB : humanize.ParseBytes "64MB" = Except.ok (64 * 1024 * 1024) := by
  decide

/-- The modelled size parser reads a plain byte count as that count. -/
theorem ParseBytes_bytes :
    humanize.ParseBytes "67108864B" = Except.ok 67108864 ∧
    humanize.ParseBytes "10485760B" = Except.ok 10485760 ∧
    humanize.ParseBytes "10485759B" = Except.ok 10485759 := by
  decide

/-- The modelled size parser fails on a literal without number or with an unknown unit. -/
theorem ParseBytes_malformed :
    humanize.ParseBytes "MB" = Except.error "invalid number" ∧
    humanize.ParseBytes "64XB" = Except.error "unhandled size name" ∧
    humanize.ParseBytes "" = Except.error "invalid number" := by
  decide

/-- One more unit of fuel than the length of the literal changes nothing. -/
theorem parseComponents_fuel : ∀ (fuel : Nat) (s : List Char) (total : Nat),
    s.length ≤ fuel →
    time.parseComponents (fuel + 1) s total = time.parseComponents fuel s total := by
  intro fuel
  induction fuel with
  | zero =>
    intro s total h
    have hs : s = [] := List.length_eq_zero.mp (by omega)
    subst hs
    rfl
  | succ n ih =>
    intro s total h
    cases s with
    | nil => rfl
    | cons c cs =>
      simp only [time.parseComponents]
      split_ifs with h1 h2
      · rfl
      · rfl
      · split
        · rfl
        · apply ih
          have hc : c.isDigit = true := by
            by_contra hc
            exact h1 (by simp [List.takeWhile, hc])
          have l1 : (List.dropWhile Char.isDigit (c :: cs)).length ≤ cs.length := by
            rw [List.dropWhile_cons_of_pos hc]
            exact (List.dropWhile_suffix _).length_le
          have l2 := (List.dropWhile_suffix
            (fun (r : Char) => !(r = Char.ofNat 46 || r.isDigit))
            (l := List.dropWhile Char.isDigit (c :: cs))).length_le
          simp only [List.length_cons] at h
          omega

/-- The length of a literal is enough fuel to read its components: more fuel gives the
same result. -/
theorem parseComponents_enough (s : List Char) (total : Nat) (k : Nat) :
    time.parseComponents (s.length + k) s total = time.parseComponents s.length s total := by
  induction k with
  | zero => rfl
  | succ k ih =>
    rw [← ih]
    exact parseComponents_fuel (s.length + k) s total (by omega)

/-- The modelled duration parser on some literals. -/
theorem ParseDuration_literals :
    time.ParseDuration "1h" = Except.ok time.Hour ∧
    time.ParseDuration "-1h" = Except.ok (-time.Hour) ∧
    time.ParseDuration "0s" = Except.ok 0 ∧
    time.ParseDuration "0" = Except.ok 0 ∧
    time.ParseDuration "2h45m" = Except.ok 9900000000000 ∧
    time.ParseDuration "1" = Except.error "missing unit in duration" ∧
    time.ParseDuration "h" = Except.error "invalid duration" ∧
    time.ParseDuration "" = Except.error "invalid duration" := by
  decide

/-- White space is trimmed at both ends and kept inside. -/
theorem TrimSpace_literals :
    strings.TrimSpace " /a " = "/a" ∧ strings.TrimSpace "/a b" = "/a b" ∧
    strings.TrimSpace " " = "" := by
  decide

/-! ## Listener configuration -/

/-- C4: getAPIServerConfig exits, with the fatal error that both certificate and key are
required, if and only if exactly one of cert and key is empty; with both non-empty it
returns TLS = true with CertFile = cert and KeyFile = key; with both empty it returns
TLS = false; and every returned config has TLS = true exactly when CertFile and KeyFile
are both non-empty. -/
theorem getAPIServerConfig_tls (c : cli.Context) :
    ((∃ x, getAPIServerConfig c = Except.error x) ↔
      ((c.Str "cert" = "" ∧ c.Str "key" ≠ "") ∨ (c.Str "cert" ≠ "" ∧ c.Str "key" = ""))) ∧
    (∀ x, getAPIServerConfig c = Except.error x → x = Exit.fatal FatalError.certAndKeyRequired) ∧
    (c.Str "cert" ≠ "" → c.Str "key" ≠ "" →
      getAPIServerConfig c =
        Except.ok ⟨c.GlobalString "api-address", true, c.Str "cert", c.Str "key"⟩) ∧
    (c.Str "cert" = "" → c.Str "key" = "" →
      getAPIServerConfig c = Except.ok ⟨c.GlobalString "api-address", false, "", ""⟩) ∧
    (∀ cfg, getAPIServerConfig c = Except.ok cfg →
      (cfg.TLS = true ↔ (cfg.CertFile ≠ "" ∧ cfg.KeyFile ≠ ""))) := by
  by_cases hc : c.Str "cert" = "" <;> by_cases hk : c.Str "key" = "" <;>
    simp [getAPIServerConfig, hc, hk]

/-- C4, on concrete input: cert.pem without a key is refused, cert.pem with key.pem gives
TLS, and neither gives no TLS. -/
theorem getAPIServerConfig_tls_witness :
    (∃ x, getAPIServerConfig (defaultContext [] "cert.pem" "") = Except.error x) ∧
    getAPIServerConfig (defaultContext [] "cert.pem" "key.pem") =
      Except.ok ⟨":9000", true, "cert.pem", "key.pem"⟩ ∧
    getAPIServerConfig (defaultContext [] "" "") = Except.ok ⟨":9000", false, "", ""⟩ :=
  ⟨(getAPIServerConfig_tls (defaultContext [] "cert.pem" "")).1.mpr
      (Or.inr ⟨by decide, by decide⟩),
    (getAPIServerConfig_tls (defaultContext [] "cert.pem" "key.pem")).2.2.1
      (by decide) (by decide),
    (getAPIServerConfig_tls (defaultContext [] "" "")).2.2.2.1 (by decide) (by decide)⟩

/-- C8: the start function of the management listener closes over a config with the
address of web-address, TLS = false and empty CertFile and KeyFile; two contexts with the
same web-address, whatever their cert and key, give the same management config; and it
is this start function that runMemory and runDonut hand to StartMinio in second place,
whatever the TLS state of the API listener in first place. -/
theorem getWebServerConfigFunc_plain (c : cli.Context) :
    getWebServerConfigFunc c =
      server.StartServerFunc.web ⟨⟨c.GlobalString "web-address", false, "", ""⟩⟩ ∧
    (∀ c2 : cli.Context, c2.GlobalString "web-address" = c.GlobalString "web-address" →
      getWebServerConfigFunc c2 = getWebServerConfigFunc c) ∧
    (∀ pb pd servers, runMemory pb pd c = Outcome.StartMinio servers →
      ∃ f, servers = [server.StartServerFunc.memory f,
        server.StartServerFunc.web ⟨⟨c.GlobalString "web-address", false, "", ""⟩⟩]) ∧
    (∀ Current Join servers, runDonut Current Join c = Outcome.StartMinio servers →
      ∃ f, servers = [server.StartServerFunc.donut f,
        server.StartServerFunc.web ⟨⟨c.GlobalString "web-address", false, "", ""⟩⟩]) := by
  refine ⟨rfl, ?_, ?_, ?_⟩
  · intro c2 h
    simp [getWebServerConfigFunc, h]
  · intro pb pd servers h
    obtain ⟨cfg, st, -, -, -, -, -, hservers⟩ := runMemory_started pb pd c servers h
    exact ⟨_, hservers⟩
  · intro Current Join servers h
    exact runDonut_started Current Join c servers h

/-- C8, on concrete input: the management config is the same with and without cert and
key, and has the default web-address, no TLS and no certificate or key file. -/
theorem getWebServerConfigFunc_plain_witness :
    getWebServerConfigFunc (defaultContext ["/a"] "cert.pem" "key.pem") =
      getWebServerConfigFunc (defaultContext ["/a"] "" "") ∧
    getWebServerConfigFunc (defaultContext ["/a"] "" "") =
      server.StartServerFunc.web ⟨⟨":9001", false, "", ""⟩⟩ ∧
    ∃ f, [server.StartServerFunc.donut ⟨⟨":9000", true, "c.pem", "k.pem"⟩, ["/mnt/backup"]⟩,
        server.StartServerFunc.web ⟨⟨":9001", false, "", ""⟩⟩] =
      [server.StartServerFunc.donut f,
        server.StartServerFunc.web
          ⟨⟨(defaultContext ["/mnt/backup"] "c.pem" "k.pem").GlobalString "web-address",
            false, "", ""⟩⟩] :=
  ⟨(getWebServerConfigFunc_plain (defaultContext ["/a"] "" "")).2.1
      (defaultContext ["/a"] "cert.pem" "key.pem") (by decide),
    (getWebServerConfigFunc_plain (defaultContext ["/a"] "" "")).1,
    (getWebServerConfigFunc_plain (defaultContext ["/mnt/backup"] "c.pem" "k.pem")).2.2.2
      (Except.ok ⟨"/home/minio"⟩) path.joinClean _ (by decide)⟩

/-! ## runDonut -/

/-- C1, as stated, fails: with an empty argument list runDonut shows the donut help and
exits with status 1; no DonutFactory is built and StartMinio is not called. -/
theorem runDonut_no_args_exits :
    runDonut (Except.ok ⟨"/home/minio"⟩) path.joinClean (defaultContext [] "" "") =
      Outcome.exited (Exit.help "donut" 1) ∧
    ¬ ∃ servers, runDonut (Except.ok ⟨"/home/minio"⟩) path.joinClean (defaultContext [] "" "") =
      Outcome.StartMinio servers := by
  have h : runDonut (Except.ok ⟨"/home/minio"⟩) path.joinClean (defaultContext [] "" "") =
      Outcome.exited (Exit.help "donut" 1) := by decide
  refine ⟨h, ?_⟩
  rintro ⟨servers, hs⟩
  rw [h] at hs
  cases hs

/-- C1, amended: with an empty argument list runDonut exits through the donut help with
status 1. The default path is used when the argument list is not empty and its first
argument is blank (empty once white space is trimmed): then, the cert and key check
passing, the DonutFactory is built with the single path path.Join(home, "minio-storage",
"donut"), whatever the other arguments. -/
theorem runDonut_default_path (u : user.User) (Join : List String → String)
    (c : cli.Context) :
    (c.Args = [] → runDonut (Except.ok u) Join c = Outcome.exited (Exit.help "donut" 1)) ∧
    (c.Args ≠ [] → strings.TrimSpace (cli.Args.First c.Args) = "" →
      ∀ cfg, getAPIServerConfig c = Except.ok cfg →
        runDonut (Except.ok u) Join c =
          Outcome.StartMinio
            [server.StartServerFunc.donut ⟨cfg, [Join [u.HomeDir, "minio-storage", "donut"]]⟩,
              getWebServerConfigFunc c]) := by
  constructor
  · intro h
    simp [runDonut, h]
  · intro hne hblank cfg hcfg
    have hlen : ¬ c.Args.length < 1 := by
      cases hargs : c.Args with
      | nil => exact absurd hargs hne
      | cons a l => simp
    simp [runDonut, hlen, hblank, hcfg, server.DonutFactory.GetStartServerFunc]

/-- C1 amended, on concrete input: no argument gives the help exit, and a single blank
argument gives the single default path under the home directory. -/
theorem runDonut_default_path_witness :
    runDonut (Except.ok ⟨"/home/minio"⟩) path.joinClean (defaultContext [] "" "") =
      Outcome.exited (Exit.help "donut" 1) ∧
    runDonut (Except.ok ⟨"/home/minio"⟩) path.joinClean (defaultContext [" "] "" "") =
      Outcome.StartMinio
        [server.StartServerFunc.donut
            ⟨⟨":9000", false, "", ""⟩, ["/home/minio/minio-storage/donut"]⟩,
          server.StartServerFunc.web ⟨⟨":9001", false, "", ""⟩⟩] :=
  ⟨(runDonut_default_path ⟨"/home/minio"⟩ path.joinClean (defaultContext [] "" "")).1 rfl,
    (runDonut_default_path ⟨"/home/minio"⟩ path.joinClean (defaultContext [" "] "" "")).2
      (by decide) (by decide) ⟨":9000", false, "", ""⟩ (by decide)⟩

/-- C3, as stated, fails: the arguments " /a" and "/b " give the paths "/a" and "/b", not
the arguments themselves; and the arguments "" and "/b" give one path, the default one. -/
theorem runDonut_paths_not_verbatim :
    runDonut (Except.ok ⟨"/home/minio"⟩) path.joinClean (defaultContext [" /a", "/b "] "" "") =
      Outcome.StartMinio
        [server.StartServerFunc.donut ⟨⟨":9000", false, "", ""⟩, ["/a", "/b"]⟩,
          server.StartServerFunc.web ⟨⟨":9001", false, "", ""⟩⟩] ∧
    runDonut (Except.ok ⟨"/home/minio"⟩) path.joinClean (defaultContext ["", "/b"] "" "") =
      Outcome.StartMinio
        [server.StartServerFunc.donut
            ⟨⟨":9000", false, "", ""⟩, ["/home/minio/minio-storage/donut"]⟩,
          server.StartServerFunc.web ⟨⟨":9001", false, "", ""⟩⟩] ∧
    ¬ ∃ cfg w,
      runDonut (Except.ok ⟨"/home/minio"⟩) path.joinClean (defaultContext [" /a", "/b "] "" "") =
        Outcome.StartMinio [server.StartServerFunc.donut ⟨cfg, [" /a", "/b "]⟩, w] := by
  have h1 : runDonut (Except.ok ⟨"/home/minio"⟩) path.joinClean
      (defaultContext [" /a", "/b "] "" "") =
      Outcome.StartMinio
        [server.StartServerFunc.donut ⟨⟨":9000", false, "", ""⟩, ["/a", "/b"]⟩,
          server.StartServerFunc.web ⟨⟨":9001", false, "", ""⟩⟩] := by decide
  refine ⟨h1, by decide, ?_⟩
  rintro ⟨cfg, w, h⟩
  rw [h1] at h
  simp only [Outcome.StartMinio.injEq, List.cons.injEq, server.StartServerFunc.donut.injEq,
    server.DonutFactory.mk.injEq] at h
  exact absurd h.1.2.1 (by decide)

/-- C3, amended: for every non-empty argument list whose first argument is not blank, the
cert and key check passing, the Paths handed to DonutFactory are the arguments with their
leading and trailing white space trimmed: same length, same order, duplicates kept; so
when no argument has leading or trailing white space, Paths is the argument list itself. -/
theorem runDonut_paths (u : user.User) (Join : List String → String) (c : cli.Context)
    (cfg : httpserver.Config) (hne : c.Args ≠ [])
    (hfirst : strings.TrimSpace (cli.Args.First c.Args) ≠ "")
    (hcfg : getAPIServerConfig c = Except.ok cfg) :
    runDonut (Except.ok u) Join c =
      Outcome.StartMinio
        [server.StartServerFunc.donut ⟨cfg, c.Args.map strings.TrimSpace⟩,
          getWebServerConfigFunc c] ∧
    (c.Args.map strings.TrimSpace).length = c.Args.length ∧
    ((∀ a ∈ c.Args, strings.TrimSpace a = a) → c.Args.map strings.TrimSpace = c.Args) := by
  have hlen : ¬ c.Args.length < 1 := by
    cases hargs : c.Args with
    | nil => exact absurd hargs hne
    | cons a l => simp
  refine ⟨?_, by simp, ?_⟩
  · simp [runDonut, hlen, hfirst, hcfg, foldl_append_trim,
      server.DonutFactory.GetStartServerFunc]
  · intro h
    exact (List.map_congr_left h).trans (List.map_id _)

/-- C3 amended, on concrete input: the arguments "/a" and "/b" give Paths = ["/a", "/b"],
and the duplicate arguments of the help text are both kept. -/
theorem runDonut_paths_witness :
    runDonut (Except.ok ⟨"/home/minio"⟩) path.joinClean (defaultContext ["/a", "/b"] "" "") =
      Outcome.StartMinio
        [server.StartServerFunc.donut ⟨⟨":9000", false, "", ""⟩, ["/a", "/b"]⟩,
          server.StartServerFunc.web ⟨⟨":9001", false, "", ""⟩⟩] ∧
    (runDonut (Except.ok ⟨"/home/minio"⟩) path.joinClean
        (defaultContext ["/mnt/backup2014feb", "/mnt/backup2014feb"] "" "") =
      Outcome.StartMinio
        [server.StartServerFunc.donut
            ⟨⟨":9000", false, "", ""⟩, ["/mnt/backup2014feb", "/mnt/backup2014feb"]⟩,
          server.StartServerFunc.web ⟨⟨":9001", false, "", ""⟩⟩]) :=
  ⟨(runDonut_paths ⟨"/home/minio"⟩ path.joinClean (defaultContext ["/a", "/b"] "" "")
      ⟨":9000", false, "", ""⟩ (by decide) (by decide) (by decide)).1,
    (runDonut_paths ⟨"/home/minio"⟩ path.joinClean
      (defaultContext ["/mnt/backup2014feb", "/mnt/backup2014feb"] "" "")
      ⟨":9000", false, "", ""⟩ (by decide) (by decide) (by decide)).1⟩

/-! ## runMemory -/

/-- C2: when limit is followed by a size literal s that the size parser accepts with
value n, the limit step (limit not being set yet) succeeds with maxMemory = n if n is at
least 10 * 1024 * 1024 and exits with the fatal error "should be greater than 10M" if n
is smaller, 10 * 1024 * 1024 - 1 included; a run whose
arguments hold the pair limit s exits when n is smaller, and a run that reaches StartMinio
has n at least the minimum and MaxMemory = n; the run on the single pair limit s builds
the factory with MaxMemory = n or exits with that fatal error, by the same bound. -/
theorem runMemory_limit_minimum (pb : String → Except String Nat)
    (pd : String → Except String Int) (c : cli.Context) (s : String) (n : Nat)
    (hs : pb s = Except.ok n) :
    (∀ (st : MemoryLoopState) (rest : List String), st.args = "limit" :: s :: rest →
      st.maxMemorySet = false →
      memoryStep pb pd st =
        if n < 10 * 1024 * 1024 then
          Except.error (Exit.fatal (FatalError.memorySizeTooSmall s))
        else Except.ok { st with args := rest, maxMemory := n, maxMemorySet := true }) ∧
    (("limit", s) ∈ pairs c.Args → n < 10 * 1024 * 1024 →
      ∃ x, runMemory pb pd c = Outcome.exited x ∧ x.status ≠ 0) ∧
    (("limit", s) ∈ pairs c.Args → ∀ servers, runMemory pb pd c = Outcome.StartMinio servers →
      10 * 1024 * 1024 ≤ n ∧
      ∃ cfg d, servers = [server.StartServerFunc.memory ⟨cfg, n, d⟩,
        getWebServerConfigFunc c]) ∧
    (∀ cfg, c.Args = ["limit", s] → getAPIServerConfig c = Except.ok cfg →
      runMemory pb pd c =
        if n < 10 * 1024 * 1024 then
          Outcome.exited (Exit.fatal (FatalError.memorySizeTooSmall s))
        else
          Outcome.StartMinio [server.StartServerFunc.memory ⟨cfg, n, 0⟩,
            getWebServerConfigFunc c]) := by
  have started : ("limit", s) ∈ pairs c.Args → ∀ servers,
      runMemory pb pd c = Outcome.StartMinio servers →
      10 * 1024 * 1024 ≤ n ∧
      ∃ cfg d, servers = [server.StartServerFunc.memory ⟨cfg, n, d⟩,
        getWebServerConfigFunc c] := by
    intro hmem servers hrun
    obtain ⟨cfg, st, -, -, heven, hloop, -, hservers⟩ := runMemory_started pb pd c servers hrun
    have acc := memoryLoop_ok pb pd c.Args 0 false 0 false st heven hloop
    obtain ⟨hparse, hmin⟩ := acc.limit_value s hmem
    rw [hs] at hparse
    have hn : n = st.maxMemory := Except.ok.inj hparse
    refine ⟨by omega, cfg, st.expiration, ?_⟩
    rw [hservers, hn]
  refine ⟨?_, ?_, started, ?_⟩
  · intro st rest hargs hset
    by_cases hn : n < 10 * 1024 * 1024
    · simp [memoryStep, hargs, hset, cli.Args.First, Tail_cons, hs, hn]
    · simp [memoryStep, hargs, hset, cli.Args.First, Tail_cons, hs, hn]
  · intro hmem hsmall
    cases hrun : runMemory pb pd c with
    | exited x =>
      exact ⟨x, rfl, by rw [runMemory_exit_status pb pd c x hrun]; decide⟩
    | StartMinio servers =>
      have := (started hmem servers hrun).1
      omega
  · intro cfg hargs hcfg
    exact runMemory_limit_only pb pd c cfg s n hargs hcfg hs

/-- C2, on concrete input: 10 MiB less one byte is refused and exactly 10 MiB is accepted. -/
theorem runMemory_limit_minimum_witness :
    runMemory humanize.ParseBytes time.ParseDuration (defaultContext ["limit", "10485759B"] "" "") =
      Outcome.exited (Exit.fatal (FatalError.memorySizeTooSmall "10485759B")) ∧
    runMemory humanize.ParseBytes time.ParseDuration (defaultContext ["limit", "10485760B"] "" "") =
      Outcome.StartMinio
        [server.StartServerFunc.memory ⟨⟨":9000", false, "", ""⟩, 10 * 1024 * 1024, 0⟩,
          server.StartServerFunc.web ⟨⟨":9001", false, "", ""⟩⟩] :=
  ⟨(runMemory_limit_minimum humanize.ParseBytes time.ParseDuration
      (defaultContext ["limit", "10485759B"] "" "") "10485759B" 10485759 (by decide)).2.2.2
      ⟨":9000", false, "", ""⟩ rfl (by decide),
    (runMemory_limit_minimum humanize.ParseBytes time.ParseDuration
      (defaultContext ["limit", "10485760B"] "" "") "10485760B" (10 * 1024 * 1024)
      (by decide)).2.2.2
      ⟨":9000", false, "", ""⟩ rfl (by decide)⟩

/-- C5: a run of runMemory whose arguments hold the keyword limit twice or more (at any
keyword positions, whatever the values and whatever stands between them) exits with
non-zero status, and so does a run whose arguments do not hold the keyword limit; a run
that builds the MemoryFactory and reaches StartMinio has the keyword limit exactly once.
When neither parser accepts the word limit as a literal, the same holds of the token
limit counted at all positions. -/
theorem runMemory_limit_exactly_once (pb : String → Except String Nat)
    (pd : String → Except String Int) (c : cli.Context) :
    (2 ≤ (keywords c.Args).count "limit" →
      ∃ x, runMemory pb pd c = Outcome.exited x ∧ x.status ≠ 0) ∧
    ("limit" ∉ keywords c.Args →
      ∃ x, runMemory pb pd c = Outcome.exited x ∧ x.status ≠ 0) ∧
    (∀ servers, runMemory pb pd c = Outcome.StartMinio servers →
      (keywords c.Args).count "limit" = 1) ∧
    ((∀ n, pb "limit" ≠ Except.ok n) → (∀ d, pd "limit" ≠ Except.ok d) →
      (c.Args.count "limit" ≠ 1 → ∃ x, runMemory pb pd c = Outcome.exited x ∧ x.status ≠ 0) ∧
      (∀ servers, runMemory pb pd c = Outcome.StartMinio servers →
        c.Args.count "limit" = 1)) := by
  have started : ∀ servers, runMemory pb pd c = Outcome.StartMinio servers →
      (keywords c.Args).count "limit" = 1 := by
    intro servers hrun
    obtain ⟨cfg, st, -, -, heven, hloop, hset, -⟩ := runMemory_started pb pd c servers hrun
    have acc := memoryLoop_ok pb pd c.Args 0 false 0 false st heven hloop
    have hmem : "limit" ∈ keywords c.Args := by
      rcases acc.limit_set.mp hset with h | h
      · cases h
      · exact h
    have hpos : 0 < (keywords c.Args).count "limit" := List.count_pos_iff.mpr hmem
    have := acc.limit_once
    omega
  have exits : (∀ servers, runMemory pb pd c ≠ Outcome.StartMinio servers) →
      ∃ x, runMemory pb pd c = Outcome.exited x ∧ x.status ≠ 0 := by
    intro hno
    cases hrun : runMemory pb pd c with
    | exited x => exact ⟨x, rfl, by rw [runMemory_exit_status pb pd c x hrun]; decide⟩
    | StartMinio servers => exact absurd hrun (hno servers)
  have startedAll : (∀ n, pb "limit" ≠ Except.ok n) → (∀ d, pd "limit" ≠ Except.ok d) →
      ∀ servers, runMemory pb pd c = Outcome.StartMinio servers →
        c.Args.count "limit" = 1 := by
    intro hpb hpd servers hrun
    obtain ⟨cfg, st, -, -, heven, hloop, -, -⟩ := runMemory_started pb pd c servers hrun
    have acc := memoryLoop_ok pb pd c.Args 0 false 0 false st heven hloop
    have hvalues : ((pairs c.Args).map Prod.snd).count "limit" = 0 := by
      rw [List.count_eq_zero]
      intro hmem
      obtain ⟨⟨k, v⟩, hkv, hv⟩ := List.mem_map.mp hmem
      simp only at hv
      subst hv
      rcases acc.known k (mem_keywords_of_mem_pairs c.Args k _ hkv) with hk | hk
      · subst hk
        exact hpb _ (acc.limit_value _ hkv).1
      · subst hk
        exact hpd _ (acc.expire_value _ hkv)
    rw [count_keywords_add_values c.Args "limit" heven, hvalues, started servers hrun]
  refine ⟨?_, ?_, started, ?_⟩
  · intro htwice
    apply exits
    intro servers hrun
    have := started servers hrun
    omega
  · intro hnone
    apply exits
    intro servers hrun
    have h1 := started servers hrun
    have h0 := List.count_eq_zero.mpr hnone
    omega
  · intro hpb hpd
    refine ⟨?_, startedAll hpb hpd⟩
    intro hcount
    apply exits
    intro servers hrun
    exact hcount (startedAll hpb hpd servers hrun)

/-- C5, on concrete input: limit given twice with expire in between, and expire given
without limit, both exit; so does limit given as its own value. -/
theorem runMemory_limit_exactly_once_witness :
    (∃ x, runMemory humanize.ParseBytes time.ParseDuration
        (defaultContext ["limit", "64MB", "expire", "1h", "limit", "1GB"] "" "") =
          Outcome.exited x ∧ x.status ≠ 0) ∧
    (∃ x, runMemory humanize.ParseBytes time.ParseDuration
        (defaultContext ["expire", "1h"] "" "") = Outcome.exited x ∧ x.status ≠ 0) ∧
    (∃ x, runMemory humanize.ParseBytes time.ParseDuration
        (defaultContext ["limit", "limit"] "" "") = Outcome.exited x ∧ x.status ≠ 0) :=
  ⟨(runMemory_limit_exactly_once humanize.ParseBytes time.ParseDuration
      (defaultContext ["limit", "64MB", "expire", "1h", "limit", "1GB"] "" "")).1 (by decide),
    (runMemory_limit_exactly_once humanize.ParseBytes time.ParseDuration
      (defaultContext ["expire", "1h"] "" "")).2.1 (by decide),
    ((runMemory_limit_exactly_once humanize.ParseBytes time.ParseDuration
      (defaultContext ["limit", "limit"] "" "")).2.2.2
        (fun n h => by
          have e : humanize.ParseBytes "limit" = Except.error "invalid number" := by decide
          rw [e] at h
          cases h)
        (fun d h => by
          have e : time.ParseDuration "limit" = Except.error "invalid duration" := by decide
          rw [e] at h
          cases h)).1 (by decide)⟩

/-- C9: a run of runMemory on an empty argument list, on a list with an odd number of
tokens, or on a list with a token in keyword position that is neither limit nor expire
exits with non-zero status, and StartMinio is not called (no MemoryFactory is built, no
server is started); the empty and the odd list exit through the memory help with status
1, and so does a list of even length whose first token is neither keyword, once the cert
and key check has passed. -/
theorem runMemory_usage_exit (pb : String → Except String Nat)
    (pd : String → Except String Int) (c : cli.Context)
    (h : c.Args = [] ∨ c.Args.length % 2 = 1 ∨
      ∃ k ∈ keywords c.Args, k ≠ "limit" ∧ k ≠ "expire") :
    (∃ x, runMemory pb pd c = Outcome.exited x ∧ x.status ≠ 0) ∧
    (∀ servers, runMemory pb pd c ≠ Outcome.StartMinio servers) ∧
    (c.Args = [] ∨ c.Args.length % 2 = 1 →
      runMemory pb pd c = Outcome.exited (Exit.help "memory" 1)) ∧
    (∀ k v rest cfg, c.Args = k :: v :: rest → rest.length % 2 = 0 → k ≠ "limit" →
      k ≠ "expire" → getAPIServerConfig c = Except.ok cfg →
      runMemory pb pd c = Outcome.exited (Exit.help "memory" 1)) := by
  have notStarted : ∀ servers, runMemory pb pd c ≠ Outcome.StartMinio servers := by
    intro servers hrun
    obtain ⟨cfg, st, -, hne, heven, hloop, -, -⟩ := runMemory_started pb pd c servers hrun
    have acc := memoryLoop_ok pb pd c.Args 0 false 0 false st heven hloop
    rcases h with h | h | ⟨k, hk, hl, he⟩
    · exact hne h
    · omega
    · rcases acc.known k hk with h1 | h1
      · exact hl h1
      · exact he h1
  refine ⟨?_, notStarted, ?_, ?_⟩
  · cases hrun : runMemory pb pd c with
    | exited x => exact ⟨x, rfl, by rw [runMemory_exit_status pb pd c x hrun]; decide⟩
    | StartMinio servers => exact absurd hrun (notStarted servers)
  · intro h2
    rcases h2 with h2 | h2
    · simp [runMemory, initialState, h2]
    · simp [runMemory, initialState, h2]
  · intro k v rest cfg hargs hrest hl he hcfg
    have hlen : ¬ (c.Args.length = 0 ∨ c.Args.length % 2 ≠ 0) := by
      rw [hargs]
      simp only [List.length_cons]
      omega
    unfold runMemory initialState
    rw [if_neg hlen, hcfg, hargs]
    simp only
    rw [memoryLoop_other pb pd k v rest 0 false 0 false hl he]

/-- C9, on concrete input: no argument, a limit without its size, and an unknown keyword
after a valid pair all exit. -/
theorem runMemory_usage_exit_witness :
    runMemory humanize.ParseBytes time.ParseDuration (defaultContext [] "" "") =
      Outcome.exited (Exit.help "memory" 1) ∧
    runMemory humanize.ParseBytes time.ParseDuration (defaultContext ["limit"] "" "") =
      Outcome.exited (Exit.help "memory" 1) ∧
    (∃ x, runMemory humanize.ParseBytes time.ParseDuration
        (defaultContext ["limit", "64MB", "expires", "1h"] "" "") =
          Outcome.exited x ∧ x.status ≠ 0) :=
  ⟨(runMemory_usage_exit humanize.ParseBytes time.ParseDuration (defaultContext [] "" "")
      (Or.inl rfl)).2.2.1 (Or.inl rfl),
    (runMemory_usage_exit humanize.ParseBytes time.ParseDuration (defaultContext ["limit"] "" "")
      (Or.inr (Or.inl rfl))).2.2.1 (Or.inr rfl),
    (runMemory_usage_exit humanize.ParseBytes time.ParseDuration
      (defaultContext ["limit", "64MB", "expires", "1h"] "" "")
      (Or.inr (Or.inr ⟨"expires", by decide, by decide, by decide⟩))).1⟩

/-- C6, as stated, fails: the arguments limit 67108864B expire -1h are accepted, expire is
supplied, and the Expiration stored in the MemoryFactory is minus one hour, which is not
positive; with expire 0s it is zero. The loop stores what the duration parser returns,
without a check of sign. -/
theorem runMemory_expiration_not_positive :
    runMemory humanize.ParseBytes time.ParseDuration
        (defaultContext ["limit", "67108864B", "expire", "-1h"] "" "") =
      Outcome.StartMinio
        [server.StartServerFunc.memory ⟨⟨":9000", false, "", ""⟩, 67108864, -time.Hour⟩,
          server.StartServerFunc.web ⟨⟨":9001", false, "", ""⟩⟩] ∧
    runMemory humanize.ParseBytes time.ParseDuration
        (defaultContext ["limit", "67108864B", "expire", "0s"] "" "") =
      Outcome.StartMinio
        [server.StartServerFunc.memory ⟨⟨":9000", false, "", ""⟩, 67108864, 0⟩,
          server.StartServerFunc.web ⟨⟨":9001", false, "", ""⟩⟩] ∧
    "expire" ∈ keywords ["limit", "67108864B", "expire", "-1h"] ∧
    ¬ (0 < -time.Hour) := by
  refine ⟨?_, ?_, by decide, by decide⟩
  · rw [runMemory_two_pairs humanize.ParseBytes time.ParseDuration _ ⟨":9000", false, "", ""⟩
      "67108864B" "-1h" 67108864 (-time.Hour) (Or.inl rfl) (by decide) (by decide)
      (by decide)]
    rfl
  · rw [runMemory_two_pairs humanize.ParseBytes time.ParseDuration _ ⟨":9000", false, "", ""⟩
      "67108864B" "0s" 67108864 0 (Or.inl rfl) (by decide) (by decide) (by decide)]
    rfl

/-- C6, amended: for every argument list that runMemory accepts, if expire was not supplied
the Expiration stored in the MemoryFactory is zero, and if expire was supplied with the
literal t the Expiration is the duration the parser returns for t, whatever its sign:
hence strictly positive exactly when the parsed duration is. -/
theorem runMemory_expiration (pb : String → Except String Nat)
    (pd : String → Except String Int) (c : cli.Context)
    (servers : List server.StartServerFunc)
    (h : runMemory pb pd c = Outcome.StartMinio servers) :
    ∃ f, servers = [server.StartServerFunc.memory f, getWebServerConfigFunc c] ∧
      ("expire" ∉ keywords c.Args → f.Expiration = 0) ∧
      (∀ t, ("expire", t) ∈ pairs c.Args → pd t = Except.ok f.Expiration) ∧
      (∀ t d, ("expire", t) ∈ pairs c.Args → pd t = Except.ok d →
        (0 < f.Expiration ↔ 0 < d)) := by
  obtain ⟨cfg, st, -, -, heven, hloop, -, hservers⟩ := runMemory_started pb pd c servers h
  have acc := memoryLoop_ok pb pd c.Args 0 false 0 false st heven hloop
  refine ⟨⟨cfg, st.maxMemory, st.expiration⟩, hservers, acc.expire_keep, acc.expire_value, ?_⟩
  intro t d hmem hd
  have := acc.expire_value t hmem
  rw [hd] at this
  rw [Except.ok.inj this]

/-- C6 amended, on concrete input: limit 67108864B expire 1h is accepted, and the
Expiration of its factory is the value of 1h. -/
theorem runMemory_expiration_witness :
    runMemory humanize.ParseBytes time.ParseDuration
        (defaultContext ["limit", "67108864B", "expire", "1h"] "" "") =
      Outcome.StartMinio
        [server.StartServerFunc.memory ⟨⟨":9000", false, "", ""⟩, 67108864, time.Hour⟩,
          server.StartServerFunc.web ⟨⟨":9001", false, "", ""⟩⟩] ∧
    ∃ f, [server.StartServerFunc.memory ⟨⟨":9000", false, "", ""⟩, 67108864, time.Hour⟩,
        server.StartServerFunc.web ⟨⟨":9001", false, "", ""⟩⟩] =
        [server.StartServerFunc.memory f,
          getWebServerConfigFunc (defaultContext ["limit", "67108864B", "expire", "1h"] "" "")] ∧
      ("expire" ∉ keywords (defaultContext ["limit", "67108864B", "expire", "1h"] "" "").Args →
        f.Expiration = 0) ∧
      (∀ t, ("expire", t) ∈ pairs (defaultContext ["limit", "67108864B", "expire", "1h"] "" "").Args →
        time.ParseDuration t = Except.ok f.Expiration) ∧
      (∀ t d, ("expire", t) ∈ pairs (defaultContext ["limit", "67108864B", "expire", "1h"] "" "").Args →
        time.ParseDuration t = Except.ok d → (0 < f.Expiration ↔ 0 < d)) :=
  have hrun : runMemory humanize.ParseBytes time.ParseDuration
        (defaultContext ["limit", "67108864B", "expire", "1h"] "" "") =
      Outcome.StartMinio
        [server.StartServerFunc.memory ⟨⟨":9000", false, "", ""⟩, 67108864, time.Hour⟩,
          server.StartServerFunc.web ⟨⟨":9001", false, "", ""⟩⟩] := by
    rw [runMemory_two_pairs humanize.ParseBytes time.ParseDuration _ ⟨":9000", false, "", ""⟩
      "67108864B" "1h" 67108864 time.Hour (Or.inl rfl) (by decide) (by decide) (by decide)]
    rfl
  ⟨hrun, runMemory_expiration humanize.ParseBytes time.ParseDuration
    (defaultContext ["limit", "67108864B", "expire", "1h"] "" "") _ hrun⟩

/-- C7: with the arguments limit 64MB expire 1h, api-address ":9000", web-address ":9001"
and neither cert nor key, runMemory builds the MemoryFactory with MaxMemory = 64 * 1024 *
1024, Expiration = one hour, Config.Address = ":9000" and Config.TLS = false, and hands
StartMinio exactly two start functions, the API one first and the web one second. The
size parser is the one modelled from the spec, where MB stands for 1024 * 1024 bytes. -/
theorem runMemory_end_to_end (c : cli.Context)
    (hargs : c.Args = ["limit", "64MB", "expire", "1h"])
    (hcert : c.Str "cert" = "") (hkey : c.Str "key" = "")
    (hapi : c.GlobalString "api-address" = ":9000")
    (hweb : c.GlobalString "web-address" = ":9001") :
    runMemory humanize.ParseBytes time.ParseDuration c =
      Outcome.StartMinio
        [server.StartServerFunc.memory
            ⟨⟨":9000", false, "", ""⟩, 64 * 1024 * 1024, time.Hour⟩,
          server.StartServerFunc.web ⟨⟨":9001", false, "", ""⟩⟩] ∧
    humanize.ParseBytes "64MB" = Except.ok (64 * 1024 * 1024) ∧
    time.ParseDuration "1h" = Except.ok (60 * 60 * 1000 * 1000 * 1000) := by
  have hcfg := getAPIServerConfig_plain c hcert hkey
  rw [hapi] at hcfg
  refine ⟨?_, by decide, by decide⟩
  rw [runMemory_two_pairs humanize.ParseBytes time.ParseDuration c ⟨":9000", false, "", ""⟩
    "64MB" "1h" (64 * 1024 * 1024) time.Hour (Or.inl hargs) hcfg (by decide) (by decide)]
  simp [getWebServerConfigFunc, hweb, server.WebFactory.GetStartServerFunc]

/-- C7, on the context with the default addresses and neither cert nor key. -/
theorem runMemory_end_to_end_witness :
    runMemory humanize.ParseBytes time.ParseDuration
        (defaultContext ["limit", "64MB", "expire", "1h"] "" "") =
      Outcome.StartMinio
        [server.StartServerFunc.memory
            ⟨⟨":9000", false, "", ""⟩, 64 * 1024 * 1024, time.Hour⟩,
          server.StartServerFunc.web ⟨⟨":9001", false, "", ""⟩⟩] :=
  (runMemory_end_to_end (defaultContext ["limit", "64MB", "expire", "1h"] "" "")
    rfl rfl rfl rfl rfl).1

/-- C10: for every size literal s and duration literal t, the runs of runMemory on
limit s expire t and on expire t limit s either both exit or both reach StartMinio, and
then with the same servers: the same Config, the same MaxMemory (the value of s) and the
same Expiration (the value of t). -/
theorem runMemory_order_independent (pb : String → Except String Nat)
    (pd : String → Except String Int) (c : cli.Context) (s t : String) :
    ((∃ x, runMemory pb pd { c with Args := ["limit", s, "expire", t] } = Outcome.exited x) ∧
      (∃ y, runMemory pb pd { c with Args := ["expire", t, "limit", s] } = Outcome.exited y)) ∨
    (∃ cfg n d, pb s = Except.ok n ∧ pd t = Except.ok d ∧
      runMemory pb pd { c with Args := ["limit", s, "expire", t] } =
        Outcome.StartMinio [server.StartServerFunc.memory ⟨cfg, n, d⟩,
          getWebServerConfigFunc c] ∧
      runMemory pb pd { c with Args := ["expire", t, "limit", s] } =
        Outcome.StartMinio [server.StartServerFunc.memory ⟨cfg, n, d⟩,
          getWebServerConfigFunc c]) := by
  have hc1 : getAPIServerConfig { c with Args := ["limit", s, "expire", t] } =
      getAPIServerConfig c := rfl
  have hc2 : getAPIServerConfig { c with Args := ["expire", t, "limit", s] } =
      getAPIServerConfig c := rfl
  cases hcfg : getAPIServerConfig c with
  | error x =>
    left
    constructor
    · exact ⟨x, by simp [runMemory, initialState, hc1, hcfg]⟩
    · exact ⟨x, by simp [runMemory, initialState, hc2, hcfg]⟩
  | ok cfg =>
    cases hs : pb s with
    | error err =>
      left
      constructor
      · exact ⟨_, by simp [runMemory, initialState, hc1, hcfg, memoryLoop_limit, hs]; rfl⟩
      · cases ht : pd t with
        | error err2 => exact ⟨_, by simp [runMemory, initialState, hc2, hcfg, memoryLoop_expire, ht]; rfl⟩
        | ok d =>
          exact ⟨_, by simp [runMemory, initialState, hc2, hcfg, memoryLoop_expire, ht, memoryLoop_limit, hs]; rfl⟩
    | ok n =>
      cases ht : pd t with
      | error err =>
        left
        constructor
        · by_cases hn : n < 1024 * 1024 * 10
          · exact ⟨_, by simp [runMemory, initialState, hc1, hcfg, memoryLoop_limit, hs, hn]; rfl⟩
          · exact ⟨_, by
              simp [runMemory, initialState, hc1, hcfg, memoryLoop_limit, hs, hn, memoryLoop_expire, ht]; rfl⟩
        · exact ⟨_, by simp [runMemory, initialState, hc2, hcfg, memoryLoop_expire, ht]; rfl⟩
      | ok d =>
        have h1 := runMemory_two_pairs pb pd { c with Args := ["limit", s, "expire", t] }
          cfg s t n d (Or.inl rfl) (hc1.trans hcfg) hs ht
        have h2 := runMemory_two_pairs pb pd { c with Args := ["expire", t, "limit", s] }
          cfg s t n d (Or.inr rfl) (hc2.trans hcfg) hs ht
        by_cases hn : n < 1024 * 1024 * 10
        · left
          rw [if_pos hn] at h1 h2
          exact ⟨⟨_, h1⟩, ⟨_, h2⟩⟩
        · right
          rw [if_neg hn] at h1 h2
          exact ⟨cfg, n, d, rfl, rfl, h1, h2⟩

end Minio
